import Mathlib

/-!
Verification of the WOMBAT_ext server's session, file-store, snapshot and
background-task subsystem, as a shallow embedding in Lean.

Paths are modelled as lists of segments (each segment a list of characters,
containing no separator); a POSIX rendering of such a path is the string
"/seg1/seg2/...".  Raw relative-path inputs are modelled as character lists,
exactly as the Python code receives strings.  Filesystem directory trees are
modelled abstractly where only their identity matters.
-/

namespace WombatExt

/-- Characters of a string literal, for writing concrete inputs. -/
def s2c (s : String) : List Char := s.data

/-- One character of Python's replace of backslashes by slashes. -/
def slashify (c : Char) : Char := if c = '\\' then '/' else c

/-- Embedding of `server/utils/paths.py::normalize_rel`: replace every
backslash by a slash, then strip all leading slashes. -/
def normalize_rel (s : List Char) : List Char :=
  (s.map slashify).dropWhile (fun c => c = '/')

/-- Split a character list on the `/` separator, as `pathlib` splits a
path string into components (empty components are produced by doubled or
trailing separators and are ignored during resolution). -/
def splitSlash : List Char → List (List Char)
  | [] => [[]]
  | c :: rest =>
    match splitSlash rest with
    | [] => [[c]]
    | a :: as => if c = '/' then [] :: a :: as else (c :: a) :: as

/-- One step of POSIX path canonicalization (`Path.resolve`, no symlinks):
empty and `.` components are skipped, `..` removes the last component
(staying at the root when already there), anything else descends. -/
def resolveStep (acc : List (List Char)) (seg : List Char) : List (List Char) :=
  if seg = [] ∨ seg = ['.'] then acc
  else if seg = ['.', '.'] then acc.dropLast
  else acc ++ [seg]

/-- Canonicalize a component list against an absolute base path. -/
def resolveSegs (base : List (List Char)) (segs : List (List Char)) : List (List Char) :=
  segs.foldl resolveStep base

/-- The string form of an absolute path, one leading `/` per segment
(`render [] = []`; real session roots are never the filesystem root, so the
special Python spelling of the root path never arises for the paths
modelled here). -/
def render : List (List Char) → List Char
  | [] => []
  | s :: rest => '/' :: (s ++ render rest)

/-- Boolean list-prefix test, used both for Python's startswith on
character lists and for descendant tests on segment lists. -/
def listPre {α : Type} [DecidableEq α] : List α → List α → Bool
  | [], _ => true
  | _ :: _, [] => false
  | a :: as, b :: bs => if a = b then listPre as bs else false

/-- Embedding of the containment test of
`server/utils/paths.py::resolve_inside`: the target string equals the base
string, or starts with the base string followed by the separator (on Linux
normcase is the identity and the separator is the slash). -/
def containsCheck (base target : List (List Char)) : Bool :=
  (render target == render base) || listPre (render base ++ ['/']) (render target)

/-- Embedding of `server/utils/paths.py::resolve_inside`: join the
normalized relative path under the base, canonicalize, and fail (the Python
code raises `ValueError`, modelled as `none`) unless the containment test
accepts the result. -/
def resolve_inside (base : List (List Char)) (rel : List Char) : Option (List (List Char)) :=
  let target := resolveSegs base (splitSlash (normalize_rel rel))
  if containsCheck base target then some target else none

/-- Modelled from the spec: the canonical resolution of a client-supplied
path under a root by standard POSIX join and resolve semantics, in which a
path carrying an absolute-path prefix ignores the root it is joined under.
This is the reading of the spec's phrase about paths that would resolve
outside a session root; it exists only to compare `resolve_inside`
against it. -/
def specJoinResolve (base : List (List Char)) (rel : List Char) : List (List Char) :=
  let r := rel.map slashify
  match r with
  | [] => resolveSegs base (splitSlash r)
  | c :: _ => if c = '/' then resolveSegs [] (splitSlash r) else resolveSegs base (splitSlash r)

/-- A well-formed path segment: nonempty and free of the separator. -/
def wfSeg (seg : List Char) : Prop := seg ≠ [] ∧ '/' ∉ seg

/-- A well-formed absolute path: every segment well-formed. -/
def wfPath (p : List (List Char)) : Prop := ∀ seg ∈ p, wfSeg seg

instance wfSegDecidable (seg : List Char) : Decidable (wfSeg seg) := by
  unfold wfSeg
  infer_instance

instance wfPathDecidable (p : List (List Char)) : Decidable (wfPath p) := by
  unfold wfPath
  infer_instance

theorem listPre_iff {α : Type} [DecidableEq α] (a b : List α) :
    listPre a b = true ↔ ∃ t, b = a ++ t := by
  induction a generalizing b with
  | nil => simp [listPre]
  | cons x as ih =>
    cases b with
    | nil => simp [listPre]
    | cons y bs =>
      constructor
      · intro h
        have hxy : x = y := by
          by_contra hne
          simp [listPre, hne] at h
        subst hxy
        have h' : listPre as bs = true := by simpa [listPre] using h
        rcases (ih bs).1 h' with ⟨t, rfl⟩
        exact ⟨t, rfl⟩
      · rintro ⟨t, ht⟩
        rw [List.cons_append] at ht
        injection ht with h1 h2
        subst h1
        simp only [listPre, if_pos rfl]
        exact (ih bs).2 ⟨t, h2⟩

theorem listPre_append {α : Type} [DecidableEq α] (a t : List α) :
    listPre a (a ++ t) = true :=
  (listPre_iff a (a ++ t)).2 ⟨t, rfl⟩

theorem listPre_refl {α : Type} [DecidableEq α] (a : List α) :
    listPre a a = true :=
  (listPre_iff a a).2 ⟨[], by simp⟩

theorem listPre_trans {α : Type} [DecidableEq α] {a b c : List α}
    (h1 : listPre a b = true) (h2 : listPre b c = true) :
    listPre a c = true := by
  rcases (listPre_iff a b).1 h1 with ⟨t1, rfl⟩
  rcases (listPre_iff _ c).1 h2 with ⟨t2, rfl⟩
  exact (listPre_iff a _).2 ⟨t1 ++ t2, by simp⟩

/-- Splitting an equation of concatenations at a segment boundary: with the
tails each empty or starting with the separator and the heads
separator-free, the two sides agree componentwise. -/
theorem seg_append_eq (s : List Char) : ∀ (t u v : List Char), '/' ∉ s → '/' ∉ t →
    (u = [] ∨ ∃ w, u = '/' :: w) → (v = [] ∨ ∃ w, v = '/' :: w) →
    s ++ u = t ++ v → s = t ∧ u = v := by
  induction s with
  | nil =>
    intro t u v _ ht hu _ h
    cases t with
    | nil => exact ⟨rfl, h⟩
    | cons d t' =>
      exfalso
      rcases hu with rfl | ⟨w, rfl⟩
      · simp at h
      · rw [List.nil_append, List.cons_append] at h
        injection h with h1 _
        subst h1
        exact ht (List.mem_cons_self _ _)
  | cons c s' ih =>
    intro t u v hs ht hu hv h
    cases t with
    | nil =>
      exfalso
      rcases hv with rfl | ⟨w, rfl⟩
      · simp at h
      · rw [List.nil_append, List.cons_append] at h
        injection h with h1 _
        rw [h1] at hs
        exact hs (List.mem_cons_self _ _)
    | cons d t' =>
      rw [List.cons_append, List.cons_append] at h
      injection h with h1 h2
      subst h1
      have hs' : '/' ∉ s' := fun hm => hs (List.mem_cons_of_mem _ hm)
      have ht' : '/' ∉ t' := fun hm => ht (List.mem_cons_of_mem _ hm)
      obtain ⟨h3, h4⟩ := ih t' u v hs' ht' hu hv h2
      exact ⟨by rw [h3], h4⟩

/-- The prefix analogue of `seg_append_eq`: a startswith test across a
segment boundary, with the left tail starting with the separator, decides
the head segments equal. -/
theorem seg_append_listPre (s : List Char) : ∀ (t u v : List Char), '/' ∉ s → '/' ∉ t →
    (∃ w, u = '/' :: w) → (v = [] ∨ ∃ w, v = '/' :: w) →
    (listPre (s ++ u) (t ++ v) = true ↔ s = t ∧ listPre u v = true) := by
  induction s with
  | nil =>
    intro t u v _ ht hu _
    obtain ⟨w, rfl⟩ := hu
    cases t with
    | nil => simp
    | cons d t' =>
      simp only [List.nil_append, List.cons_append]
      constructor
      · intro h
        exfalso
        by_cases hd : ('/' : Char) = d
        · rw [← hd] at ht; exact ht (List.mem_cons_self _ _)
        · simp [listPre, hd] at h
      · rintro ⟨h, -⟩; cases h
  | cons c s' ih =>
    intro t u v hs ht hu hv
    cases t with
    | nil =>
      simp only [List.cons_append, List.nil_append]
      constructor
      · intro h
        exfalso
        rcases hv with rfl | ⟨w, rfl⟩
        · simp [listPre] at h
        · by_cases hc : c = '/'
          · rw [hc] at hs; exact hs (List.mem_cons_self _ _)
          · simp [listPre, hc] at h
      · rintro ⟨h, -⟩; cases h
    | cons d t' =>
      simp only [List.cons_append]
      have hs' : '/' ∉ s' := fun hm => hs (List.mem_cons_of_mem _ hm)
      have ht' : '/' ∉ t' := fun hm => ht (List.mem_cons_of_mem _ hm)
      by_cases hcd : c = d
      · subst hcd
        have hred : listPre (c :: (s' ++ u)) (c :: (t' ++ v)) = listPre (s' ++ u) (t' ++ v) := by
          simp [listPre]
        rw [hred, ih t' u v hs' ht' hu hv]
        simp
      · simp [listPre, hcd]

theorem render_append (a b : List (List Char)) :
    render (a ++ b) = render a ++ render b := by
  induction a with
  | nil => simp [render]
  | cons s as ih => simp [render, ih]

theorem render_head (p : List (List Char)) :
    render p = [] ∨ ∃ w, render p = '/' :: w := by
  cases p with
  | nil => exact Or.inl rfl
  | cons s rest => exact Or.inr ⟨s ++ render rest, rfl⟩

theorem render_inj {a : List (List Char)} : ∀ {b : List (List Char)},
    wfPath a → wfPath b → render a = render b → a = b := by
  induction a with
  | nil =>
    intro b _ _ h
    cases b with
    | nil => rfl
    | cons t bs => exact absurd h (by simp [render])
  | cons s as ih =>
    intro b ha hb h
    cases b with
    | nil => exact absurd h (by simp [render])
    | cons t bs =>
      simp only [render] at h
      injection h with _ h2
      have hs : '/' ∉ s := (ha s (List.mem_cons_self _ _)).2
      have ht : '/' ∉ t := (hb t (List.mem_cons_self _ _)).2
      obtain ⟨h3, h4⟩ := seg_append_eq s t _ _ hs ht (render_head as) (render_head bs) h2
      have ha' : wfPath as := fun seg hm => ha seg (List.mem_cons_of_mem _ hm)
      have hb' : wfPath bs := fun seg hm => hb seg (List.mem_cons_of_mem _ hm)
      rw [h3, ih ha' hb' h4]

/-- For well-formed paths, the string containment test of `resolve_inside`
agrees exactly with the segment-level descendant-or-equal relation. -/
theorem containsCheck_iff {a : List (List Char)} : ∀ {b : List (List Char)},
    wfPath a → wfPath b → (containsCheck a b = true ↔ listPre a b = true) := by
  induction a with
  | nil =>
    intro b _ _
    cases b with
    | nil => simp [containsCheck, render, listPre]
    | cons t bs =>
      simp only [containsCheck, render, listPre, List.nil_append]
      simp [listPre]
  | cons s as ih =>
    intro b ha hb
    cases b with
    | nil =>
      simp only [containsCheck, render, listPre]
      simp [listPre]
    | cons t bs =>
      have hs : '/' ∉ s := (ha s (List.mem_cons_self _ _)).2
      have ht : '/' ∉ t := (hb t (List.mem_cons_self _ _)).2
      have ha' : wfPath as := fun seg hm => ha seg (List.mem_cons_of_mem _ hm)
      have hb' : wfPath bs := fun seg hm => hb seg (List.mem_cons_of_mem _ hm)
      have hu : ∃ w, render as ++ ['/'] = '/' :: w := by
        rcases render_head as with h | ⟨w, h⟩ <;> simp [h]
      have key := seg_append_listPre s t (render as ++ ['/']) (render bs) hs ht hu (render_head bs)
      constructor
      · intro h
        rw [containsCheck, Bool.or_eq_true] at h
        rcases h with h | h
        · have heq : render (t :: bs) = render (s :: as) := eq_of_beq h
          have hba : (t :: bs : List (List Char)) = s :: as := render_inj hb ha heq
          rw [hba]
          exact listPre_refl _
        · have h' : listPre (s ++ (render as ++ ['/'])) (t ++ render bs) = true := by
            have : render (s :: as) ++ ['/'] = '/' :: (s ++ (render as ++ ['/'])) := by
              simp [render]
            rw [this] at h
            have hrb : render (t :: bs) = '/' :: (t ++ render bs) := by simp [render]
            rw [hrb] at h
            simpa [listPre] using h
          obtain ⟨hst, hpre⟩ := key.1 h'
          subst hst
          simp only [listPre, if_pos rfl]
          apply (ih ha' hb').1
          rcases (listPre_iff (render as ++ ['/']) (render bs)).1 hpre with ⟨w, hw⟩
          rw [containsCheck, Bool.or_eq_true]
          right
          rw [hw]
          exact listPre_append _ _
      · intro h
        rcases (listPre_iff (s :: as) (t :: bs)).1 h with ⟨rest, hrest⟩
        rw [containsCheck, Bool.or_eq_true]
        rcases rest with _ | ⟨r, rs⟩
        · rw [List.append_nil] at hrest
          left
          rw [hrest]
          simp
        · right
          rw [hrest, render_append]
          apply (listPre_iff _ _).2
          refine ⟨r ++ render rs, ?_⟩
          simp [render]

theorem splitSlash_ne_nil (s : List Char) : splitSlash s ≠ [] := by
  cases s with
  | nil => simp [splitSlash]
  | cons c rest =>
    simp only [splitSlash]
    cases h : splitSlash rest with
    | nil => simp
    | cons a as => by_cases hc : c = '/' <;> simp [hc]

theorem splitSlash_no_slash (s : List Char) : ∀ seg ∈ splitSlash s, '/' ∉ seg := by
  induction s with
  | nil =>
    intro seg hm
    simp [splitSlash] at hm
    simp [hm]
  | cons c rest ih =>
    intro seg hm
    cases h : splitSlash rest with
    | nil => exact absurd h (splitSlash_ne_nil rest)
    | cons a as =>
      simp only [splitSlash, h] at hm
      by_cases hc : c = '/'
      · rw [if_pos hc] at hm
        rcases List.mem_cons.1 hm with rfl | hm'
        · simp
        · exact ih seg (h ▸ hm')
      · rw [if_neg hc] at hm
        rcases List.mem_cons.1 hm with rfl | hm'
        · intro hin
          rcases List.mem_cons.1 hin with heq | hin'
          · exact hc heq.symm
          · exact ih a (h ▸ List.mem_cons_self a as) hin'
        · exact ih seg (h ▸ List.mem_cons_of_mem a hm')

theorem mem_dropLast_mem {α : Type} {x : α} : ∀ {l : List α}, x ∈ l.dropLast → x ∈ l := by
  intro l
  induction l with
  | nil => intro h; simp at h
  | cons a rest ih =>
    intro h
    cases rest with
    | nil => simp at h
    | cons b rest' =>
      rw [List.dropLast_cons₂] at h
      rcases List.mem_cons.1 h with rfl | h'
      · exact List.mem_cons_self _ _
      · exact List.mem_cons_of_mem a (ih h')

theorem resolveStep_wf {acc : List (List Char)} {seg : List Char}
    (hacc : wfPath acc) (hseg : '/' ∉ seg) : wfPath (resolveStep acc seg) := by
  unfold resolveStep
  split_ifs with h1 h2
  · exact hacc
  · exact fun s hm => hacc s (mem_dropLast_mem hm)
  · intro s hm
    rcases List.mem_append.1 hm with hm' | hm'
    · exact hacc s hm'
    · have : s = seg := by simpa using hm'
      subst this
      exact ⟨fun hnil => h1 (Or.inl hnil), hseg⟩

theorem resolveSegs_wf (base : List (List Char)) : ∀ (segs : List (List Char)),
    wfPath base → (∀ seg ∈ segs, '/' ∉ seg) → wfPath (resolveSegs base segs) := by
  intro segs
  induction segs generalizing base with
  | nil => intro hb _; exact hb
  | cons s rest ih =>
    intro hb hsegs
    have hstep : wfPath (resolveStep base s) :=
      resolveStep_wf hb (hsegs s (List.mem_cons_self _ _))
    exact ih _ hstep (fun seg hm => hsegs seg (List.mem_cons_of_mem s hm))

theorem resolveSegs_noDotDot (base : List (List Char)) : ∀ (segs : List (List Char)),
    (∀ seg ∈ segs, seg ≠ ['.', '.']) → ∃ t, resolveSegs base segs = base ++ t := by
  intro segs
  induction segs generalizing base with
  | nil => intro _; exact ⟨[], by simp [resolveSegs]⟩
  | cons s rest ih =>
    intro h
    have hs : s ≠ ['.', '.'] := h s (List.mem_cons_self _ _)
    have hrest : ∀ seg ∈ rest, seg ≠ ['.', '.'] := fun seg hm => h seg (List.mem_cons_of_mem s hm)
    have hun : resolveSegs base (s :: rest) = resolveSegs (resolveStep base s) rest := rfl
    rw [hun]
    unfold resolveStep
    split_ifs with h1
    · exact ih base hrest
    · rcases ih (base ++ [s]) hrest with ⟨t, ht⟩
      exact ⟨[s] ++ t, by rw [ht, List.append_assoc]⟩

/-- C1 (amended): `resolve_inside` first normalizes the client path by
replacing backslashes with slashes and stripping every leading slash, so an
absolute-path prefix is reinterpreted relative to the root rather than
rejected.  After that normalization it fails exactly when the canonical
resolution of the normalized path under the root is neither the root nor a
descendant; on success it returns that resolution, which always has the
root as a prefix, and any normalized path free of dot-dot segments
succeeds. -/
theorem resolve_inside_containment (base : List (List Char)) (rel : List Char)
    (hbase : wfPath base) :
    (∀ t, resolve_inside base rel = some t →
        t = resolveSegs base (splitSlash (normalize_rel rel)) ∧ listPre base t = true) ∧
    (resolve_inside base rel = none ↔
        listPre base (resolveSegs base (splitSlash (normalize_rel rel))) = false) ∧
    ((∀ seg ∈ splitSlash (normalize_rel rel), seg ≠ ['.', '.']) →
        (resolve_inside base rel).isSome = true) := by
  have hsegs : ∀ seg ∈ splitSlash (normalize_rel rel), '/' ∉ seg := splitSlash_no_slash _
  have hwf : wfPath (resolveSegs base (splitSlash (normalize_rel rel))) :=
    resolveSegs_wf base _ hbase hsegs
  have hiff := containsCheck_iff hbase hwf
  refine ⟨?_, ?_, ?_⟩
  · intro t ht
    by_cases hc : containsCheck base (resolveSegs base (splitSlash (normalize_rel rel))) = true
    · simp only [resolve_inside, if_pos hc, Option.some.injEq] at ht
      subst ht
      exact ⟨rfl, hiff.1 hc⟩
    · simp [resolve_inside, hc] at ht
  · by_cases hc : containsCheck base (resolveSegs base (splitSlash (normalize_rel rel))) = true
    · constructor
      · intro h
        simp [resolve_inside, hc] at h
      · intro h
        have := hiff.1 hc
        rw [this] at h
        cases h
    · constructor
      · intro _
        exact Bool.eq_false_iff.mpr (fun hT => hc (hiff.2 hT))
      · intro _
        simp [resolve_inside, hc]
  · intro hnd
    have hLP : listPre base (resolveSegs base (splitSlash (normalize_rel rel))) = true := by
      rcases resolveSegs_noDotDot base _ hnd with ⟨t, ht⟩
      rw [ht]
      exact listPre_append _ _
    have hc := hiff.2 hLP
    simp [resolve_inside, hc]

/-- Witness for C1's amended theorem at a concrete root and path. -/
theorem resolve_inside_containment_witness :
    (resolve_inside [s2c "tmp", s2c "sess1"] (s2c "project/config")).isSome = true :=
  (resolve_inside_containment [s2c "tmp", s2c "sess1"] (s2c "project/config")
    (by decide)).2.2 (by decide)

/-- C1 counterexample: the path "/etc/passwd" canonically resolves (by
standard join semantics, as the spec's wording reads) outside the root
[tmp, sess1], yet `resolve_inside` does not fail: it silently clamps the
path under the root and succeeds.  Conversely "/../tmp/sess1" canonically
resolves to the root itself, yet `resolve_inside` fails on it. -/
theorem resolve_inside_clamps_absolute :
    listPre [s2c "tmp", s2c "sess1"]
        (specJoinResolve [s2c "tmp", s2c "sess1"] (s2c "/etc/passwd")) = false ∧
    resolve_inside [s2c "tmp", s2c "sess1"] (s2c "/etc/passwd")
      = some [s2c "tmp", s2c "sess1", s2c "etc", s2c "passwd"] ∧
    specJoinResolve [s2c "tmp", s2c "sess1"] (s2c "/../tmp/sess1")
      = [s2c "tmp", s2c "sess1"] ∧
    resolve_inside [s2c "tmp", s2c "sess1"] (s2c "/../tmp/sess1") = none := by
  decide

/-! ## Snapshot save: name sanitization (`saved_libraries.py::save_client_library`) -/

/-- Drop characters satisfying `p` from the front of a list (Python strip,
one end). -/
def dropLeading (p : Char → Bool) : List Char → List Char
  | [] => []
  | c :: rest => if p c then dropLeading p rest else c :: rest

/-- Python's two-ended strip of the characters satisfying `p`. -/
def pyStrip (p : Char → Bool) (l : List Char) : List Char :=
  (dropLeading p ((dropLeading p l).reverse)).reverse

/-- The whitespace characters stripped by Python's bare strip call. -/
def isPySpace (c : Char) : Bool :=
  c == ' ' || c == '\t' || c == '\n' || c == '\r' || c == '\x0B' || c == '\x0C'

/-- Slash or backslash, the characters of the trailing strip in
`save_client_library`. -/
def sepOrBack (c : Char) : Bool := c == '/' || c == '\\'

/-- Carriage return or line feed, removed everywhere by the two replace
calls in `save_client_library`. -/
def crlf (c : Char) : Bool := c == '\r' || c == '\n'

/-- Embedding of the name sanitization of
`saved_libraries.py::save_client_library`: whitespace strip, removal of
every CR and LF, strip of slashes and backslashes at both ends only, and
the fallback name when the result is empty. -/
def sanitizeName (s : List Char) : List Char :=
  let a := pyStrip isPySpace s
  let b := a.filter (fun c => !(crlf c))
  let c := pyStrip sepOrBack b
  if c = [] then ['p', 'r', 'o', 'j', 'e', 'c', 't'] else c

/-- The snapshot area keyed by snapshot name; saving deletes any
pre-existing snapshot of the sanitized name and copies the session tree
in (a full replace). -/
def save_client_library (area : List Char → Option Nat) (srcTree : Nat) (name : List Char) :
    List Char → Option Nat :=
  fun n => if n = sanitizeName name then some srcTree else area n

/-- The directory the copy lands in, as the operating system resolves the
unchecked join of the snapshot area with the sanitized name. -/
def saveDest (base : List (List Char)) (name : List Char) : List (List Char) :=
  resolveSegs base (splitSlash (sanitizeName name))

theorem dropLeading_head (p : Char → Bool) : ∀ l : List Char,
    dropLeading p l = [] ∨ ∃ x xs, dropLeading p l = x :: xs ∧ p x = false := by
  intro l
  induction l with
  | nil => exact Or.inl rfl
  | cons c rest ih =>
    by_cases hc : p c
    · simpa [dropLeading, hc] using ih
    · exact Or.inr ⟨c, rest, by simp [dropLeading, hc], Bool.eq_false_iff.mpr hc⟩

theorem dropLeading_suffix (p : Char → Bool) : ∀ l : List Char,
    ∃ t, l = t ++ dropLeading p l := by
  intro l
  induction l with
  | nil => exact ⟨[], rfl⟩
  | cons c rest ih =>
    by_cases hc : p c
    · rcases ih with ⟨t, ht⟩
      exact ⟨c :: t, by simp [dropLeading, hc, ← ht]⟩
    · exact ⟨[], by simp [dropLeading, hc]⟩

theorem mem_dropLeading {p : Char → Bool} {x : Char} {l : List Char}
    (h : x ∈ dropLeading p l) : x ∈ l := by
  rcases dropLeading_suffix p l with ⟨t, ht⟩
  rw [ht]
  exact List.mem_append.2 (Or.inr h)

theorem mem_pyStrip {p : Char → Bool} {x : Char} {l : List Char}
    (h : x ∈ pyStrip p l) : x ∈ l := by
  unfold pyStrip at h
  rw [List.mem_reverse] at h
  have h2 := mem_dropLeading h
  rw [List.mem_reverse] at h2
  exact mem_dropLeading h2

theorem pyStrip_ends (p : Char → Bool) (l : List Char) :
    (∀ x xs, pyStrip p l = x :: xs → p x = false) ∧
    (∀ x xs, (pyStrip p l).reverse = x :: xs → p x = false) := by
  constructor
  · intro x xs h
    rcases dropLeading_suffix p ((dropLeading p l).reverse) with ⟨t, ht⟩
    have hl : dropLeading p l = pyStrip p l ++ t.reverse := by
      have := congrArg List.reverse ht
      simpa [pyStrip] using this
    rcases dropLeading_head p l with hnil | ⟨x', xs', hx', hp'⟩
    · rw [hnil, h] at hl
      exact absurd hl (by simp)
    · rw [hx', h] at hl
      rw [List.cons_append] at hl
      injection hl with h1 _
      rw [← h1]
      exact hp'
  · intro x xs h
    have hrr : (pyStrip p l).reverse = dropLeading p ((dropLeading p l).reverse) := by
      simp [pyStrip]
    rw [hrr] at h
    rcases dropLeading_head p ((dropLeading p l).reverse) with hnil | ⟨x', xs', hx', hp'⟩
    · rw [hnil] at h; cases h
    · rw [hx'] at h
      injection h with h1 _
      rw [← h1]
      exact hp'

/-- C4 (amended): the sanitized snapshot name is never empty (the fallback
name is used instead), contains no CR or LF, and carries no leading or
trailing slash or backslash — but interior separators and dot-dot segments
survive.  Whenever the sanitized name is free of dot-dot segments, the copy
destination lies inside the snapshot area, and a save fully replaces any
pre-existing snapshot of the same sanitized name. -/
theorem save_sanitize_properties (name : List Char) (base : List (List Char)) :
    sanitizeName name ≠ [] ∧
    (∀ c ∈ sanitizeName name, crlf c = false) ∧
    (∀ x xs, sanitizeName name = x :: xs → sepOrBack x = false) ∧
    (∀ x xs, (sanitizeName name).reverse = x :: xs → sepOrBack x = false) ∧
    ((∀ seg ∈ splitSlash (sanitizeName name), seg ≠ ['.', '.']) →
        listPre base (saveDest base name) = true) ∧
    (∀ (area : List Char → Option Nat) (src : Nat),
        save_client_library area src name (sanitizeName name) = some src) := by
  refine ⟨?_, ?_, ?_, ?_, ?_, ?_⟩
  · simp only [sanitizeName]
    split_ifs with h
    · simp
    · exact h
  · intro c hc
    simp only [sanitizeName] at hc
    split_ifs at hc with h
    · simp only [List.mem_cons, List.not_mem_nil, or_false] at hc
      rcases hc with rfl | rfl | rfl | rfl | rfl | rfl | rfl <;> decide
    · have hb := mem_pyStrip hc
      rw [List.mem_filter] at hb
      simpa using hb.2
  · intro x xs h
    simp only [sanitizeName] at h
    split_ifs at h with hsplit
    · injection h with h1 _
      rw [← h1]
      decide
    · exact (pyStrip_ends sepOrBack _).1 x xs h
  · intro x xs h
    simp only [sanitizeName] at h
    split_ifs at h with hsplit
    · injection h with h1 _
      rw [← h1]
      decide
    · exact (pyStrip_ends sepOrBack _).2 x xs h
  · intro hnd
    rcases resolveSegs_noDotDot base _ hnd with ⟨t, ht⟩
    rw [saveDest, ht]
    exact listPre_append _ _
  · intro area src
    simp [save_client_library]

/-- Witness for C4's amended theorem at a concrete safe name. -/
theorem save_sanitize_properties_witness :
    listPre [s2c "srv"] (saveDest [s2c "srv"] (s2c "proj")) = true :=
  (save_sanitize_properties (s2c "proj") [s2c "srv"]).2.2.2.2.1 (by decide)

/-- C4 counterexample: sanitization leaves interior separators and dot-dot
segments untouched, so the save destination for the name "../escape" is a
sibling of the snapshot area, outside it. -/
theorem save_name_escapes_area :
    sanitizeName (s2c "../escape") = s2c "../escape" ∧
    sanitizeName (s2c "a/b") = s2c "a/b" ∧
    saveDest [s2c "server", s2c "client_library"] (s2c "../escape")
      = [s2c "server", s2c "escape"] ∧
    listPre [s2c "server", s2c "client_library"]
      (saveDest [s2c "server", s2c "client_library"] (s2c "../escape")) = false := by
  decide

/-! ## Snapshot load, restore and delete (`saved_libraries.py`) -/

/-- A directory tree, identified by content identity; a copy or delete that
fails midway leaves a truncated tree carrying the identity it was derived
from. -/
inductive TreeVal
  | full (n : Nat)
  | truncated (n : Nat)
deriving DecidableEq

/-- The content identity a tree was derived from. -/
def idOf : TreeVal → Nat
  | .full n => n
  | .truncated n => n

/-- The damaged form a tree is left in by a partially completed delete. -/
def truncOf : TreeVal → TreeVal
  | .full n => .truncated n
  | .truncated n => .truncated n

/-- The live session root and its fixed backup slot (the sibling
directory named backup_before_load). -/
structure LoadState where
  live : Option TreeVal
  backup : Option TreeVal
deriving DecidableEq

/-- The step at which a single filesystem primitive of the load fails
(each primitive may fail at most once per run, matching the claim's
"a failure between steps"). -/
inductive FailPt
  | noFail
  | atBackupClear
  | atBackupCopy
  | atDeleteLive
  | atRestoreCopy
deriving DecidableEq

/-- The filesystem actions of `load_saved_library`, in program order. -/
inductive StepTag
  | clearBackupSlot
  | copyLiveToBackup
  | deleteLiveRoot
  | copySnapshotToLive
deriving DecidableEq

/-- Boolean subsequence test, for stating that an execution trace follows
the program order of the canonical step list. -/
def subseq {α : Type} [DecidableEq α] : List α → List α → Bool
  | [], _ => true
  | _ :: _, [] => false
  | a :: as, b :: bs => if a = b then subseq as bs else subseq (a :: as) bs

/-- Embedding of the tail of `saved_libraries.py::load_saved_library`
(after its name validation and existence checks): when the live root
exists, the inner try clears the backup slot if present and copies the
live root into it with any exception swallowed (a clear failure skips the
copy), then the live root is deleted and the snapshot (content identity
`snap`) is copied into its place; a failure in those last two steps aborts
with a `False` result.  Returns the final state, the returned boolean and
the trace of attempted filesystem actions. -/
def loadExec (st : LoadState) (snap : Nat) (fp : FailPt) :
    LoadState × Bool × List StepTag :=
  match st.live with
  | none =>
      if fp = .atRestoreCopy then
        (⟨some (.truncated snap), st.backup⟩, false, [StepTag.copySnapshotToLive])
      else
        (⟨some (.full snap), st.backup⟩, true, [StepTag.copySnapshotToLive])
  | some live =>
      let bkRes : Option TreeVal × List StepTag :=
        match st.backup with
        | some b =>
            if fp = .atBackupClear then (some (truncOf b), [StepTag.clearBackupSlot])
            else if fp = .atBackupCopy then
              (some (.truncated (idOf live)), [StepTag.clearBackupSlot, StepTag.copyLiveToBackup])
            else (some live, [StepTag.clearBackupSlot, StepTag.copyLiveToBackup])
        | none =>
            if fp = .atBackupCopy then (some (.truncated (idOf live)), [StepTag.copyLiveToBackup])
            else (some live, [StepTag.copyLiveToBackup])
      if fp = .atDeleteLive then
        (⟨some (truncOf live), bkRes.1⟩, false, bkRes.2 ++ [StepTag.deleteLiveRoot])
      else if fp = .atRestoreCopy then
        (⟨some (.truncated snap), bkRes.1⟩, false,
          bkRes.2 ++ [StepTag.deleteLiveRoot, StepTag.copySnapshotToLive])
      else
        (⟨some (.full snap), bkRes.1⟩, true,
          bkRes.2 ++ [StepTag.deleteLiveRoot, StepTag.copySnapshotToLive])

/-- C3: when the session root exists, a snapshot load attempts its
filesystem actions in the order clear-backup-slot, copy-live-to-backup,
delete-live, copy-snapshot; a failure-free run replaces the root with the
snapshot and the backup slot with the old root; any single failure leaves
either a reported success with the snapshot in place, or a failed run
whose damaged root always has the pre-load original intact in the backup
slot. -/
theorem load_saved_backup_ordering (live0 : TreeVal) (bk0 : Option TreeVal)
    (snap : Nat) (fp : FailPt) :
    subseq (loadExec ⟨some live0, bk0⟩ snap fp).2.2
        [StepTag.clearBackupSlot, StepTag.copyLiveToBackup,
         StepTag.deleteLiveRoot, StepTag.copySnapshotToLive] = true ∧
    (fp = FailPt.noFail →
        (loadExec ⟨some live0, bk0⟩ snap fp).1 = ⟨some (.full snap), some live0⟩ ∧
        (loadExec ⟨some live0, bk0⟩ snap fp).2.1 = true) ∧
    (∀ n, (loadExec ⟨some live0, bk0⟩ snap fp).1.live = some (.truncated n) →
        (loadExec ⟨some live0, bk0⟩ snap fp).1.backup = some live0) ∧
    ((loadExec ⟨some live0, bk0⟩ snap fp).2.1 = true →
        (loadExec ⟨some live0, bk0⟩ snap fp).1.live = some (.full snap)) := by
  cases fp <;> cases bk0 <;>
    simp [loadExec, subseq, truncOf, idOf]

/-- Witness for C3's theorem on a concrete pre-load state and failure
point. -/
theorem load_saved_backup_ordering_witness :
    (loadExec ⟨some (.full 1), some (.full 2)⟩ 3 FailPt.noFail).1
      = ⟨some (.full 3), some (.full 1)⟩ :=
  ((load_saved_backup_ordering (.full 1) (some (.full 2)) 3 FailPt.noFail).2.1 rfl).1

/-! ## Saved-library containment checks (`delete_saved_library`,
`load_saved_library`, `routers/saved.py::list_saved_library_files`) -/

/-- The resolution of the unchecked join used by the saved-library
operations: `(base / name).resolve()`, with a leading slash in the name
overriding the base as `pathlib` join does. -/
def joinResolve (base : List (List Char)) (name : List Char) : List (List Char) :=
  match name with
  | [] => resolveSegs base (splitSlash name)
  | c :: _ => if c = '/' then resolveSegs [] (splitSlash name) else resolveSegs base (splitSlash name)

/-- Python's bare startswith between two rendered paths, with no separator
appended to the base (unlike the check inside `resolve_inside`). -/
def startswithStr (base target : List (List Char)) : Bool :=
  listPre (render base) (render target)

/-- The validation of `saved_libraries.py::delete_saved_library`. -/
def delete_saved_check (base : List (List Char)) (name : List Char) : Bool :=
  startswithStr base (joinResolve base name)

/-- The validation of `saved_libraries.py::load_saved_library`. -/
def load_saved_check (base : List (List Char)) (name : List Char) : Bool :=
  startswithStr base (joinResolve base name)

/-- The validation of `routers/saved.py::list_saved_library_files`. -/
def list_saved_files_check (base : List (List Char)) (name : List Char) : Bool :=
  startswithStr base (joinResolve base name)

/-- Embedding of `saved_libraries.py::delete_saved_library` over the
snapshot area viewed as a map from resolved directory paths to trees:
validate with the bare startswith, require existence, then remove. -/
def delete_saved_library (base : List (List Char)) (area : List (List Char) → Option Nat)
    (name : List Char) : Bool × (List (List Char) → Option Nat) :=
  let target := joinResolve base name
  if delete_saved_check base name = false then (false, area)
  else
    match area target with
    | none => (false, area)
    | some _ => (true, fun p => if p = target then none else area p)

/-- C9: all three saved-library containment checks are the bare
startswith on rendered path strings with no following separator required;
concretely, for the name "../client_libraryX/data" the resolved target
lies in a sibling directory whose name extends the base directory's name,
it is not the base or a descendant of it, yet every check accepts it and
the delete operation removes it. -/
theorem saved_checks_accept_sibling :
    (∀ base name, delete_saved_check base name
        = listPre (render base) (render (joinResolve base name)) ∧
      load_saved_check base name
        = listPre (render base) (render (joinResolve base name)) ∧
      list_saved_files_check base name
        = listPre (render base) (render (joinResolve base name))) ∧
    joinResolve [s2c "srv", s2c "client_library"] (s2c "../client_libraryX/data")
      = [s2c "srv", s2c "client_libraryX", s2c "data"] ∧
    listPre [s2c "srv", s2c "client_library"]
      [s2c "srv", s2c "client_libraryX", s2c "data"] = false ∧
    delete_saved_check [s2c "srv", s2c "client_library"] (s2c "../client_libraryX/data") = true ∧
    load_saved_check [s2c "srv", s2c "client_library"] (s2c "../client_libraryX/data") = true ∧
    list_saved_files_check [s2c "srv", s2c "client_library"] (s2c "../client_libraryX/data") = true ∧
    (delete_saved_library [s2c "srv", s2c "client_library"]
        (fun p => if p = [s2c "srv", s2c "client_libraryX", s2c "data"] then some 7 else none)
        (s2c "../client_libraryX/data")).1 = true ∧
    (delete_saved_library [s2c "srv", s2c "client_library"]
        (fun p => if p = [s2c "srv", s2c "client_libraryX", s2c "data"] then some 7 else none)
        (s2c "../client_libraryX/data")).2
      [s2c "srv", s2c "client_libraryX", s2c "data"] = none := by
  refine ⟨fun base name => ⟨rfl, rfl, rfl⟩, ?_, ?_, ?_, ?_, ?_, ?_, ?_⟩ <;> decide

/-! ## Session manager (`client_manager.py`) -/

/-- The first eight characters of a client id, as Python's `cid[:8]`. -/
def take8 (cid : List Char) : List Char := cid.take 8

/-- The name of a session's temp directory: the fixed prefix followed by
the first eight characters of the client id. -/
def clientDirName (cid : List Char) : List Char := s2c "client_" ++ take8 cid

/-- The temp base directory of the server. -/
def tempBase : List (List Char) := [s2c "server", s2c "temp"]

/-- The per-session temp directory path. -/
def clientDir (cid : List Char) : List (List Char) := tempBase ++ [clientDirName cid]

/-- Embedding of `ClientManager._create_client_project`: it creates the
client directory, then tries to materialize a template library in a fresh
sim subdirectory inside it; if that call raises (`libFails`), the except
clause falls back to returning the bare client directory. -/
def create_client_project (cid : List Char) (libFails : Bool) (simName : List Char) :
    List (List Char) :=
  if libFails then clientDir cid else clientDir cid ++ [s2c "sim_" ++ simName]

/-- The live-session tables of `ClientManager` (simulation-state ids and
the project-directory map). -/
structure MgrState where
  client_simulations : List (List Char)
  client_projects : List (List Char × List (List Char))
deriving DecidableEq

/-- Association lookup in the project table; `none` models the Python
empty-string unknown-session sentinel of `get_client_project_dir`. -/
def lookupProj : List (List Char × List (List Char)) → List Char → Option (List (List Char))
  | [], _ => none
  | (k, v) :: rest, cid => if k = cid then some v else lookupProj rest cid

/-- Embedding of `ClientManager.get_client_project_dir`. -/
def get_client_project_dir (st : MgrState) (cid : List Char) : Option (List (List Char)) :=
  lookupProj st.client_projects cid

/-- Embedding of `ClientManager.create_session`: initialize simulation
state, provision the project directory (with fallback on provisioning
failure), and record it in the live table unconditionally. -/
def create_session (st : MgrState) (cid : List Char) (libFails : Bool) (simName : List Char) :
    MgrState :=
  { client_simulations := st.client_simulations ++ [cid],
    client_projects := st.client_projects ++ [(cid, create_client_project cid libFails simName)] }

theorem lookupProj_append_last (l : List (List Char × List (List Char)))
    (cid : List Char) (v : List (List Char)) (h : lookupProj l cid = none) :
    lookupProj (l ++ [(cid, v)]) cid = some v := by
  induction l with
  | nil => simp [lookupProj]
  | cons e rest ih =>
    obtain ⟨k, w⟩ := e
    by_cases hk : k = cid
    · simp [lookupProj, hk] at h
    · simp only [lookupProj, if_neg hk] at h
      simpa [lookupProj, hk] using ih h

/-- C5 (amended): when provisioning fails during session creation, the
session is nonetheless created and fully visible — its id is added to the
simulation-state table and the project map sends it to the bare client
directory (not a root materialized from the reference template); when
provisioning succeeds the root is the materialized sim directory. -/
theorem create_session_fallback (st : MgrState) (cid simName : List Char) (libFails : Bool)
    (hfresh : lookupProj st.client_projects cid = none) :
    get_client_project_dir (create_session st cid libFails simName) cid
        = some (create_client_project cid libFails simName) ∧
    cid ∈ (create_session st cid libFails simName).client_simulations ∧
    (libFails = true → create_client_project cid libFails simName = clientDir cid) ∧
    (libFails = false →
        create_client_project cid libFails simName = clientDir cid ++ [s2c "sim_" ++ simName]) := by
  refine ⟨?_, ?_, ?_, ?_⟩
  · exact lookupProj_append_last _ _ _ hfresh
  · simp [create_session]
  · intro h; simp [create_client_project, h]
  · intro h; simp [create_client_project, h]

/-- Witness for C5's amended theorem at a concrete fresh id. -/
theorem create_session_fallback_witness :
    get_client_project_dir
        (create_session ⟨[], []⟩ (s2c "abcd1234-x") true (s2c "00aa11bb"))
        (s2c "abcd1234-x")
      = some (clientDir (s2c "abcd1234-x")) :=
  ((create_session_fallback ⟨[], []⟩ (s2c "abcd1234-x") (s2c "00aa11bb") true rfl).1).trans
    (by rw [(create_session_fallback ⟨[], []⟩ (s2c "abcd1234-x") (s2c "00aa11bb") true rfl).2.2.1 rfl])

/-- C5 counterexample: with provisioning failing, the created session is
visible (its id maps to the bare client directory), and that root is not a
materialized template root for any sim-directory name, refuting the claim
that a provisioning failure leaves no half-initialized session visible. -/
theorem create_session_fallback_visible :
    get_client_project_dir
        (create_session ⟨[], []⟩ (s2c "abcd1234-x") true (s2c "00aa11bb"))
        (s2c "abcd1234-x")
      = some (clientDir (s2c "abcd1234-x")) ∧
    (s2c "abcd1234-x") ∈
        (create_session ⟨[], []⟩ (s2c "abcd1234-x") true (s2c "00aa11bb")).client_simulations ∧
    (∀ simName : List Char,
        clientDir (s2c "abcd1234-x") ≠ create_client_project (s2c "abcd1234-x") false simName) := by
  refine ⟨by decide, by decide, ?_⟩
  intro simName h
  have hlen := congrArg List.length h
  simp [clientDir, create_client_project, tempBase] at hlen

/-! ## Orphan sweeper (`ClientManager.sweep_unused_temp`) -/

/-- The directory names of currently-live sessions. -/
def activePrefixes (ids : List (List Char)) : List (List Char) :=
  ids.map (fun cid => s2c "client_" ++ take8 cid)

/-- The loop of `sweep_unused_temp`: every directory whose name starts
with the fixed prefix and is not a live session's name is removed and
reported. -/
def sweepLoop (active : List (List Char)) : List (List Char) → List (List Char)
  | [] => []
  | d :: rest =>
      if listPre (s2c "client_") d = true then
        if d ∈ active then sweepLoop active rest
        else d :: sweepLoop active rest
      else sweepLoop active rest

/-- Embedding of `ClientManager.sweep_unused_temp` on the listing of the
temp base directory. -/
def sweep_unused_temp (dirs : List (List Char)) (ids : List (List Char)) : List (List Char) :=
  sweepLoop (activePrefixes ids) dirs

/-- The session-root naming convention as the spec words it: the fixed
prefix followed by the first eight characters of some (UUID-length)
session id. -/
def specConvention (n : List Char) : Prop :=
  ∃ cid : List Char, cid.length = 36 ∧ n = s2c "client_" ++ cid.take 8

theorem sweepLoop_mem (active : List (List Char)) (d : List Char) :
    ∀ dirs : List (List Char), d ∈ sweepLoop active dirs ↔
      (d ∈ dirs ∧ listPre (s2c "client_") d = true ∧ d ∉ active) := by
  intro dirs
  induction dirs with
  | nil => simp [sweepLoop]
  | cons x rest ih =>
    by_cases hx : listPre (s2c "client_") x = true
    · by_cases hain : x ∈ active
      · simp only [sweepLoop, if_pos hx, if_pos hain]
        rw [ih]
        constructor
        · rintro ⟨h1, h2, h3⟩
          exact ⟨List.mem_cons_of_mem x h1, h2, h3⟩
        · rintro ⟨h1, h2, h3⟩
          rcases List.mem_cons.1 h1 with rfl | h1'
          · exact absurd hain h3
          · exact ⟨h1', h2, h3⟩
      · simp only [sweepLoop, if_pos hx, if_neg hain]
        constructor
        · intro hmem
          rcases List.mem_cons.1 hmem with rfl | hmem'
          · exact ⟨List.mem_cons_self _ _, hx, hain⟩
          · obtain ⟨h1, h2, h3⟩ := ih.1 hmem'
            exact ⟨List.mem_cons_of_mem x h1, h2, h3⟩
        · rintro ⟨h1, h2, h3⟩
          rcases List.mem_cons.1 h1 with rfl | h1'
          · exact List.mem_cons_self _ _
          · exact List.mem_cons_of_mem x (ih.2 ⟨h1', h2, h3⟩)
    · simp only [sweepLoop, if_neg hx]
      rw [ih]
      constructor
      · rintro ⟨h1, h2, h3⟩
        exact ⟨List.mem_cons_of_mem x h1, h2, h3⟩
      · rintro ⟨h1, h2, h3⟩
        rcases List.mem_cons.1 h1 with rfl | h1'
        · exact absurd h2 hx
        · exact ⟨h1', h2, h3⟩

/-- C8 (amended): the sweep removes exactly the temp directories whose
names start with the fixed prefix and do not belong to a live session —
not only those of the full prefix-plus-eight-characters form — and every
live session's directory survives. -/
theorem sweep_unused_temp_exactly (dirs ids : List (List Char)) :
    (∀ d, d ∈ sweep_unused_temp dirs ids ↔
        (d ∈ dirs ∧ listPre (s2c "client_") d = true ∧ d ∉ activePrefixes ids)) ∧
    (∀ cid ∈ ids, (s2c "client_" ++ take8 cid) ∉ sweep_unused_temp dirs ids) := by
  constructor
  · intro d
    exact sweepLoop_mem _ d dirs
  · intro cid hcid hmem
    have h := (sweepLoop_mem (activePrefixes ids) _ dirs).1 hmem
    exact h.2.2 (List.mem_map.2 ⟨cid, hcid, rfl⟩)

/-- Witness for C8's amended theorem at a concrete listing. -/
theorem sweep_unused_temp_exactly_witness :
    (s2c "client_abcd1234") ∉
      sweep_unused_temp [s2c "client_abcd1234", s2c "client_dead0000"]
        [s2c "abcd1234-aaaa-bbbb-cccc-dddddddddddd"] :=
  (sweep_unused_temp_exactly [s2c "client_abcd1234", s2c "client_dead0000"]
      [s2c "abcd1234-aaaa-bbbb-cccc-dddddddddddd"]).2
    (s2c "abcd1234-aaaa-bbbb-cccc-dddddddddddd") (List.mem_cons_self _ _)

/-- C8 counterexample: a directory named client_zz does not match the
naming convention (the prefix followed by the first eight characters of a
UUID-length session id), yet the sweep deletes and reports it. -/
theorem sweep_deletes_nonconforming :
    sweep_unused_temp [s2c "client_zz"] [] = [s2c "client_zz"] ∧
    ¬ specConvention (s2c "client_zz") := by
  constructor
  · decide
  · rintro ⟨cid, hlen, heq⟩
    have h9 : (s2c "client_zz").length = 9 := rfl
    rw [heq, List.length_append, List.length_take, hlen] at h9
    simp [s2c] at h9

/-! ## Force-clear temp (`ClientManager.clear_client_temp`) -/

/-- The directory `clear_client_temp` targets: the parent of the recorded
project directory for a known id, or the directory inferred from the fixed
prefix and the first eight characters of the id otherwise. -/
def clearTarget (st : MgrState) (cid : List Char) : List (List Char) :=
  match lookupProj st.client_projects cid with
  | none => clientDir cid
  | some projDir => projDir.dropLast

/-- Embedding of `ClientManager.clear_client_temp` over the set of
existing temp directories: delete the target if it exists, reporting
`False` exactly when that deletion raises; a missing target is not an
error. -/
def clear_client_temp (st : MgrState) (fs : List (List (List Char))) (cid : List Char)
    (rmFails : Bool) : Bool × List (List (List Char)) :=
  let target := clearTarget st cid
  if target ∈ fs then
    (if rmFails then (false, fs) else (true, fs.filter (fun p => p ≠ target)))
  else (true, fs)

/-- C10: force-clear-temp returns success for every client id, known to
the live table or not; for an unknown id it infers the target from the
fixed prefix plus the first eight id characters and still returns success
when that directory does not exist (changing nothing); it returns failure
exactly when the deletion of an existing target raises. -/
theorem clear_client_temp_total (st : MgrState) (fs : List (List (List Char)))
    (cid : List Char) (rmFails : Bool) :
    ((clear_client_temp st fs cid rmFails).1 = false ↔
        (rmFails = true ∧ clearTarget st cid ∈ fs)) ∧
    (clearTarget st cid ∉ fs → clear_client_temp st fs cid rmFails = (true, fs)) ∧
    (lookupProj st.client_projects cid = none → clearTarget st cid = clientDir cid) := by
  refine ⟨?_, ?_, ?_⟩
  · by_cases hin : clearTarget st cid ∈ fs
    · cases rmFails <;> simp [clear_client_temp, hin]
    · simp [clear_client_temp, hin]
  · intro hnin
    simp [clear_client_temp, hnin]
  · intro hnone
    simp [clearTarget, hnone]

/-- Witness for C10's theorem: an unknown id with no matching directory
still reports success. -/
theorem clear_client_temp_total_witness :
    clear_client_temp ⟨[], []⟩ [] (s2c "deadbeef-0") true = (true, []) :=
  (clear_client_temp_total ⟨[], []⟩ [] (s2c "deadbeef-0") true).2.1 (by decide)

/-! ## Background tasks (`server/simulations.py`) -/

/-- A progress snapshot, as the registry stores it (numbers abstracted to
rationals). -/
structure Progress where
  now : Rat
  percent : Option Rat
  message : List Char
deriving DecidableEq

/-- A task result payload: the job's returned document on success, the
error dictionary built from the exception message on failure. -/
inductive RVal
  | payload (n : Nat)
  | errorDict (msg : List Char)
deriving DecidableEq

/-- The scanned file listing stored alongside a result: a real listing, or
the empty dictionary stored by the failure branch. -/
inductive FVal
  | listing (n : Nat)
  | emptyFiles
deriving DecidableEq

/-- One registry entry of the module-level task table. -/
structure TaskEntry where
  status : List Char
  result : Option RVal
  files : Option FVal
  client_id : List Char
  progress : Progress
deriving DecidableEq

/-- The entry `start_simulation_task` inserts at launch. -/
def initTask (cid : List Char) : TaskEntry :=
  { status := s2c "running", result := none, files := none, client_id := cid,
    progress := { now := 0, percent := none, message := s2c "queued" } }

/-- The progress callback's registry write: replaces the whole progress
field, touching nothing else. -/
def progressUpdate (e : TaskEntry) (p : Progress) : TaskEntry :=
  { e with progress := p }

/-- The worker's normal-return update: status finished, the job's result
and scanned files stored, percent forced to 100. -/
def finishUpdate (e : TaskEntry) (r : RVal) (f : FVal) : TaskEntry :=
  { e with status := s2c "finished", result := some r, files := some f,
           progress := { now := e.progress.now, percent := some 100,
                         message := s2c "finished" } }

/-- The worker's exception update: status failed, the error dictionary
stored, files emptied, percent set to none with message failed. -/
def failUpdate (e : TaskEntry) (msg : List Char) : TaskEntry :=
  { e with status := s2c "failed", result := some (RVal.errorDict msg),
           files := some FVal.emptyFiles,
           progress := { now := e.progress.now, percent := none,
                         message := s2c "failed" } }

/-- The point-in-time view `get_task_status` returns. -/
structure StatusView where
  status : List Char
  result : Option RVal
  files : Option FVal
  progress : Option Progress
deriving DecidableEq

/-- Association lookup in the task registry. -/
def lookupTask : List (List Char × TaskEntry) → List Char → Option TaskEntry
  | [], _ => none
  | (k, v) :: rest, tid => if k = tid then some v else lookupTask rest tid

/-- Embedding of `simulations.py::get_task_status`: a pure read returning
not-found for an unknown id and the stored fields otherwise. -/
def get_task_status (tasks : List (List Char × TaskEntry)) (tid : List Char) : StatusView :=
  match lookupTask tasks tid with
  | none => { status := s2c "not_found", result := none, files := none, progress := none }
  | some e => { status := e.status, result := e.result, files := e.files,
                progress := some e.progress }

/-- The registry writes the single worker of a task can perform. -/
inductive WorkerOp
  | prog (p : Progress)
  | finish (r : RVal) (f : FVal)
  | fail (msg : List Char)
deriving DecidableEq

def applyOp (e : TaskEntry) : WorkerOp → TaskEntry
  | .prog p => progressUpdate e p
  | .finish r f => finishUpdate e r f
  | .fail m => failUpdate e m

def runOps (e : TaskEntry) (ops : List WorkerOp) : TaskEntry :=
  ops.foldl applyOp e

/-- The worker's full mutation sequence in `start_simulation_task`: any
number of progress-callback writes while the job runs, then exactly one
terminal write — the finished update on normal return, the failed update
on an exception. -/
def workerTrace (ps : List Progress) (outcome : Except (List Char) (RVal × FVal)) :
    List WorkerOp :=
  ps.map WorkerOp.prog ++
    [match outcome with
     | .ok (r, f) => WorkerOp.finish r f
     | .error m => WorkerOp.fail m]

/-- A terminal task status. -/
def isTerminal (s : List Char) : Bool := s == s2c "finished" || s == s2c "failed"

/-- The status stored in the registry after the first `k` writes of the
worker's sequence. -/
def statusAfter (cid : List Char) (ps : List Progress)
    (outcome : Except (List Char) (RVal × FVal)) (k : Nat) : List Char :=
  (runOps (initTask cid) ((workerTrace ps outcome).take k)).status

/-- C2 (amended): on any exception from the job the worker sets the
task's entry to status failed with the error dictionary as result and an
empty file listing, preserving the progress counter but setting the
progress percent to none — not to the forced 100 of the success path —
with message failed; a status poll then reports exactly that terminal
state. -/
theorem failed_task_status (tid msg : List Char) (e : TaskEntry) :
    (failUpdate e msg).status = s2c "failed" ∧
    (failUpdate e msg).result = some (RVal.errorDict msg) ∧
    (failUpdate e msg).files = some FVal.emptyFiles ∧
    (failUpdate e msg).progress.percent = none ∧
    (failUpdate e msg).progress.message = s2c "failed" ∧
    (failUpdate e msg).progress.now = e.progress.now ∧
    get_task_status [(tid, failUpdate e msg)] tid
      = { status := s2c "failed", result := some (RVal.errorDict msg),
          files := some FVal.emptyFiles,
          progress := some { now := e.progress.now, percent := none,
                             message := s2c "failed" } } := by
  refine ⟨rfl, rfl, rfl, rfl, rfl, rfl, ?_⟩
  simp [get_task_status, lookupTask, failUpdate]

/-- C2 counterexample: a task that had reported percent 37 and then
fails ends with progress percent none, not the forced 100 the claim
states; the poll sees status failed with percent none. -/
theorem failed_task_percent_not_100 :
    (failUpdate (progressUpdate (initTask (s2c "c1"))
        { now := 5, percent := some 37, message := s2c "running" })
        (s2c "boom")).status = s2c "failed" ∧
    (failUpdate (progressUpdate (initTask (s2c "c1"))
        { now := 5, percent := some 37, message := s2c "running" })
        (s2c "boom")).progress.percent ≠ some 100 ∧
    (get_task_status
        [(s2c "t1", failUpdate (progressUpdate (initTask (s2c "c1"))
            { now := 5, percent := some 37, message := s2c "running" })
            (s2c "boom"))]
        (s2c "t1")).progress
      = some { now := 5, percent := none, message := s2c "failed" } := by
  refine ⟨rfl, ?_, rfl⟩
  intro h
  cases h

theorem runOps_prog_status (e : TaskEntry) : ∀ ps : List Progress,
    (runOps e (ps.map WorkerOp.prog)).status = e.status := by
  intro ps
  induction ps generalizing e with
  | nil => rfl
  | cons p rest ih => exact ih (progressUpdate e p)

theorem statusAfter_running (cid : List Char) (ps : List Progress)
    (outcome : Except (List Char) (RVal × FVal)) (k : Nat) (hk : k ≤ ps.length) :
    statusAfter cid ps outcome k = s2c "running" := by
  unfold statusAfter workerTrace
  rw [List.take_append_of_le_length (by simpa using hk)]
  rw [← List.map_take]
  rw [runOps_prog_status]
  rfl

theorem statusAfter_terminal (cid : List Char) (ps : List Progress)
    (outcome : Except (List Char) (RVal × FVal)) (k : Nat) (hk : ps.length < k) :
    isTerminal (statusAfter cid ps outcome k) = true := by
  unfold statusAfter workerTrace
  rw [List.take_of_length_le (by simpa using hk)]
  rw [runOps, List.foldl_append]
  cases outcome with
  | ok rf => obtain ⟨r, f⟩ := rf; rfl
  | error m => rfl

/-- C6: the registry status of a task moves one way — it stays running
through every progress write and becomes finished or failed by the single
terminal write, after which it never changes; hence once a poll reports a
terminal status, every later poll of that task reports a terminal status
and never running. -/
theorem task_status_one_way (cid tid : List Char) (ps : List Progress)
    (outcome : Except (List Char) (RVal × FVal)) (i j : Nat) (hij : i ≤ j)
    (hterm : isTerminal (statusAfter cid ps outcome i) = true) :
    isTerminal (statusAfter cid ps outcome j) = true ∧
    (get_task_status
        [(tid, runOps (initTask cid) ((workerTrace ps outcome).take j))] tid).status
      ≠ s2c "running" := by
  have hi : ps.length < i := by
    by_contra hle
    rw [statusAfter_running cid ps outcome i (Nat.le_of_not_lt hle)] at hterm
    cases hterm
  have hj : ps.length < j := Nat.lt_of_lt_of_le hi hij
  have hterm_j := statusAfter_terminal cid ps outcome j hj
  refine ⟨hterm_j, ?_⟩
  have hs : (get_task_status
      [(tid, runOps (initTask cid) ((workerTrace ps outcome).take j))] tid).status
      = statusAfter cid ps outcome j := by
    simp [get_task_status, lookupTask, statusAfter]
  rw [hs]
  intro hrun
  rw [hrun] at hterm_j
  cases hterm_j

/-- Witness for C6's theorem on a concrete failing run. -/
theorem task_status_one_way_witness :
    isTerminal (statusAfter (s2c "c1")
        [{ now := 1, percent := none, message := s2c "p" }]
        (Except.error (s2c "x")) 3) = true :=
  (task_status_one_way (s2c "c1") (s2c "t1")
      [{ now := 1, percent := none, message := s2c "p" }]
      (Except.error (s2c "x")) 2 3 (by decide) (by decide)).1

/-! ## Library file reads (`services/libraries.py`, `library_manager.py`,
`routers/library.py`, `rest_api.py`) -/

/-- A parsed YAML document: the null result of parsing an empty file, the
empty dictionary, or any other document. -/
inductive YDoc
  | nullDoc
  | emptyDict
  | doc (n : Nat)
deriving DecidableEq

/-- A stored file, carrying both the document its content parses to and
its raw text. -/
structure FileData where
  yamlView : YDoc
  textView : List Char
deriving DecidableEq

/-- Lookup of a resolved absolute path in the session's file tree. -/
def lookupFile : List (List (List Char) × FileData) → List (List Char) → Option FileData
  | [], _ => none
  | (k, v) :: rest, p => if k = p then some v else lookupFile rest p

/-- What a Python read returns: None, a parsed document, or raw text. -/
inductive ReadResult
  | noneRes
  | docRes (d : YDoc)
  | textRes (s : List Char)
deriving DecidableEq

def toLowerList (l : List Char) : List Char := l.map Char.toLower

def endsWith (suf l : List Char) : Bool := listPre suf.reverse l.reverse

/-- The lowercased-suffix test for YAML files. -/
def isYamlName (seg : List Char) : Bool :=
  endsWith (s2c ".yaml") (toLowerList seg) || endsWith (s2c ".yml") (toLowerList seg)

/-- Whether the file a resolved path names is treated as YAML. -/
def isYamlPath (p : List (List Char)) : Bool :=
  match p.getLast? with
  | none => false
  | some seg => isYamlName seg

/-- Reading a present file: parse as YAML when the suffix says so, raw
text otherwise. -/
def readFile (fd : FileData) (yamlSuffix : Bool) : ReadResult :=
  if yamlSuffix then .docRes fd.yamlView else .textRes fd.textView

/-- Python's falsy-coalescing `or` with the empty dict, as in the
`safe_load(f) or` form of `library_manager.py`. -/
def orEmptyDict : YDoc → YDoc
  | .nullDoc => .emptyDict
  | .emptyDict => .emptyDict
  | .doc n => .doc n

/-- Embedding of `services/libraries.py::get_client_library_file`: unknown
client gives None; the path goes through `resolve_inside` (an escape error
is caught and gives None); a missing file gives None; otherwise the file
is parsed or read by suffix. -/
def services_get_client_library_file (known : Bool) (root : List (List Char))
    (fs : List (List (List Char) × FileData)) (rel : List Char) : ReadResult :=
  if known = false then .noneRes
  else
    match resolve_inside root rel with
    | none => .noneRes
    | some target =>
        match lookupFile fs target with
        | none => .noneRes
        | some fd => readFile fd (isYamlPath target)

/-- Embedding of `library_manager.py::get_client_library_file`: unknown
client gives the empty dict or empty string by suffix of the relative
path; the path is joined unchecked; a missing file gives the empty dict;
a parsed falsy document is coalesced to the empty dict. -/
def lm_get_client_library_file (known : Bool) (root : List (List Char))
    (fs : List (List (List Char) × FileData)) (rel : List Char) : ReadResult :=
  if known = false then
    (if isYamlName (toLowerList rel) then .docRes .emptyDict else .textRes [])
  else
    let target := joinResolve root rel
    match lookupFile fs target with
    | none => .docRes .emptyDict
    | some fd =>
        if isYamlPath target then .docRes (orEmptyDict fd.yamlView)
        else .textRes fd.textView

/-- An HTTP-boundary outcome for the read endpoints. -/
inductive HttpOut
  | ok (file : List Char) (data : ReadResult)
  | notFound404
  | unknownClient404
deriving DecidableEq

/-- Embedding of the non-raw branch of
`routers/library.py::read_library_file`, which reads through the services
function and maps its None to a 404. -/
def routerReadLibraryFile (known : Bool) (root : List (List Char))
    (fs : List (List (List Char) × FileData)) (rel : List Char) : HttpOut :=
  if known = false then .unknownClient404
  else
    match services_get_client_library_file true root fs rel with
    | .noneRes => .notFound404
    | r => .ok rel r

/-- Embedding of the non-raw branch of
`rest_api.py::read_library_file`, which reads through the
`library_manager` function and maps only a literal None to a 404. -/
def restApiReadLibraryFile (known : Bool) (root : List (List Char))
    (fs : List (List (List Char) × FileData)) (rel : List Char) : HttpOut :=
  if known = false then .unknownClient404
  else
    match lm_get_client_library_file true root fs rel with
    | .noneRes => .notFound404
    | r => .ok rel r

/-- C7 (amended): for a file absent from the session root, the
services-based read returns None and the newer router maps it to a 404 —
and a path escape also yields a 404 there — but the legacy
`library_manager` read returns the empty document for the same missing
file and the legacy rest_api boundary returns it as a success response,
not a 404. -/
theorem missing_file_reads (root : List (List Char))
    (fs : List (List (List Char) × FileData)) (rel : List Char) :
    (∀ target, resolve_inside root rel = some target → lookupFile fs target = none →
        services_get_client_library_file true root fs rel = .noneRes ∧
        routerReadLibraryFile true root fs rel = .notFound404) ∧
    (resolve_inside root rel = none →
        services_get_client_library_file true root fs rel = .noneRes ∧
        routerReadLibraryFile true root fs rel = .notFound404) ∧
    (lookupFile fs (joinResolve root rel) = none →
        lm_get_client_library_file true root fs rel = .docRes .emptyDict ∧
        restApiReadLibraryFile true root fs rel = .ok rel (.docRes .emptyDict)) := by
  refine ⟨?_, ?_, ?_⟩
  · intro target hres hlook
    have h1 : services_get_client_library_file true root fs rel = .noneRes := by
      simp [services_get_client_library_file, hres, hlook]
    refine ⟨h1, ?_⟩
    simp [routerReadLibraryFile, h1]
  · intro hres
    have h1 : services_get_client_library_file true root fs rel = .noneRes := by
      simp [services_get_client_library_file, hres]
    refine ⟨h1, ?_⟩
    simp [routerReadLibraryFile, h1]
  · intro hlook
    have h1 : lm_get_client_library_file true root fs rel = .docRes .emptyDict := by
      simp [lm_get_client_library_file, hlook]
    refine ⟨h1, ?_⟩
    simp [restApiReadLibraryFile, h1]

/-- Witness for C7's amended theorem on a concrete empty session. -/
theorem missing_file_reads_witness :
    routerReadLibraryFile true [s2c "server", s2c "temp", s2c "client_ab"] []
        (s2c "project/config/base.yaml") = .notFound404 :=
  ((missing_file_reads [s2c "server", s2c "temp", s2c "client_ab"] []
      (s2c "project/config/base.yaml")).1
    [s2c "server", s2c "temp", s2c "client_ab", s2c "project", s2c "config", s2c "base.yaml"]
    (by decide) (by decide)).2

/-- C7 counterexample: for a missing file under a valid session root the
legacy read returns the empty document and the legacy boundary answers
with a success response carrying that empty document, while only the
newer router answers with a 404. -/
theorem missing_file_read_empty_doc :
    lm_get_client_library_file true [s2c "server", s2c "temp", s2c "client_ab"] []
        (s2c "project/config/base.yaml") = .docRes .emptyDict ∧
    restApiReadLibraryFile true [s2c "server", s2c "temp", s2c "client_ab"] []
        (s2c "project/config/base.yaml")
      = .ok (s2c "project/config/base.yaml") (.docRes .emptyDict) ∧
    routerReadLibraryFile true [s2c "server", s2c "temp", s2c "client_ab"] []
        (s2c "project/config/base.yaml") = .notFound404 := by
  decide

end WombatExt
